import Mathlib

/- Verification development for the HBAI chat application.
   Shallow embedding of:
   - src/korean_utils.py, class KoreanTextProcessor;
   - src/app.py, class MockModelManager and function process_chat_message;
   - src/huggingface_model_manager.py, method _make_chat_completion.
   Python strings are modelled as Lean String values.  The regular
   expression substitutions of the source are modelled by character-level
   functions implementing the scan semantics of the concrete patterns
   used there. -/

namespace HBAI

/-- Characters removed by the Python str.strip method: ASCII whitespace
together with the Unicode space characters. -/
def pyWhitespace : List Char :=
  [' ', '\t', '\n', '\x0b', '\x0c', '\r', '\x1c', '\x1d', '\x1e', '\x1f',
   '\x85', '\xa0', '\u1680', '\u2000', '\u2001', '\u2002', '\u2003', '\u2004',
   '\u2005', '\u2006', '\u2007', '\u2008', '\u2009', '\u200a', '\u2028',
   '\u2029', '\u202f', '\u205f', '\u3000']

def isPyWs (c : Char) : Bool := pyWhitespace.contains c

/-- Model of the Python str.strip method: remove leading and trailing
whitespace characters (used at src/korean_utils.py line 58 and for the
strip calls in src/app.py line 71 and src/huggingface_model_manager.py
lines 124 and 159). -/
def pyStrip (l : List Char) : List Char :=
  ((l.dropWhile isPyWs).reverse.dropWhile isPyWs).reverse

/-- Scan for the earliest closing role-marker delimiter: a vertical bar
directly followed by a greater-than sign, aborting at a newline (the dot
of the non-greedy pattern at src/korean_utils.py line 53 does not match a
newline).  Returns the characters after that delimiter, with a proof that
the scan consumed at least one character. -/
def chopToClose : (l : List Char) → Option { r : List Char // r.length < l.length }
  | [] => none
  | c :: cs =>
    if c = '\n' then none
    else if c = '|' ∧ cs.head? = some '>' then
      some ⟨cs.tail, by
        cases cs with
        | nil => simp
        | cons d t => simp; omega⟩
    else
      match chopToClose cs with
      | some ⟨r, hr⟩ => some ⟨r, Nat.lt_succ_of_lt hr⟩
      | none => none

/-- Model of the substitution at src/korean_utils.py line 53 that deletes
every non-greedy match of an opening marker followed, on the same line,
by a closing marker (leftover special tokens of the chat template). -/
def stripTokens : (l : List Char) → List Char
  | [] => []
  | c :: cs =>
    if c = '<' ∧ cs.head? = some '|' then
      match chopToClose cs.tail with
      | some ⟨rest, _hrest⟩ => stripTokens rest
      | none => c :: stripTokens cs
    else c :: stripTokens cs
termination_by l => l.length
decreasing_by
  · rename_i hrest
    have h1 : cs.tail.length ≤ cs.length := by
      cases cs <;> simp
    simp only [List.length_cons]
    omega
  · simp only [List.length_cons]; omega
  · simp only [List.length_cons]; omega

/-- Collapse every run of the repeated character ch to one occurrence;
models the substitutions collapsing newline runs and space runs at
src/korean_utils.py lines 56 and 57. -/
def collapseRuns (ch : Char) : List Char → List Char
  | [] => []
  | [c] => [c]
  | c :: d :: t =>
    if c = ch ∧ d = ch then collapseRuns ch (d :: t)
    else c :: collapseRuns ch (d :: t)

/-- Punctuation class of the spacing patterns at src/korean_utils.py
lines 71 and 74. -/
def isPunctC (c : Char) : Bool :=
  c = ',' || c = '.' || c = '!' || c = '?' || c = ';' || c = ':'

/-- Character class of Latin letters and Hangul syllables used by the
pattern at src/korean_utils.py line 74. -/
def isWordC (c : Char) : Bool :=
  (decide ('가' ≤ c) && decide (c ≤ '힣')) ||
  (decide ('a' ≤ c) && decide (c ≤ 'z')) ||
  (decide ('A' ≤ c) && decide (c ≤ 'Z'))

/-- Right-to-left scan for the substitution removing space runs before
punctuation (src/korean_utils.py line 71).  The boolean is true when the
part already processed begins with punctuation, possibly preceded by
spaces that are being removed. -/
def rmSpBeforePunctAux : List Char → List Char × Bool
  | [] => ([], false)
  | c :: cs =>
    let r := rmSpBeforePunctAux cs
    if c = ' ' then
      if r.2 then (r.1, true) else (c :: r.1, false)
    else (c :: r.1, isPunctC c)

def rmSpBeforePunct (l : List Char) : List Char := (rmSpBeforePunctAux l).1

/-- Insert one space after punctuation directly followed by a Latin letter
or a Hangul syllable; models the substitution at src/korean_utils.py
line 74 (matches do not overlap: the scan resumes after the matched
pair). -/
def addSpAfterPunct : List Char → List Char
  | [] => []
  | [c] => [c]
  | c :: d :: t =>
    if isPunctC c ∧ isWordC d then c :: ' ' :: d :: addSpAfterPunct t
    else c :: addSpAfterPunct (d :: t)

/-- True when the list begins with zero or more spaces followed by an
opening parenthesis. -/
def afterSpacesParen : List Char → Bool
  | [] => false
  | c :: cs => if c = '(' then true else if c = ' ' then afterSpacesParen cs else false

/-- True when the list begins with a space and, after further spaces, an
opening parenthesis: the situation in which the space in front of it is
dropped by the substitution at src/korean_utils.py line 77. -/
def spaceThenParen : List Char → Bool
  | [] => false
  | c :: t => decide (c = ' ') && afterSpacesParen t

/-- Replace every run of spaces directly before an opening parenthesis by
a single space (src/korean_utils.py line 77): a space is dropped exactly
when at least one more space and then an opening parenthesis follow. -/
def spaceParen1 : List Char → List Char
  | [] => []
  | c :: cs =>
    if c = ' ' && spaceThenParen cs then spaceParen1 cs
    else c :: spaceParen1 cs

/-- State machine for the substitution collapsing spaces after a closing
parenthesis to one (src/korean_utils.py line 78).  State 1: the previous
character was a closing parenthesis.  State 2: the previous characters
were a closing parenthesis, one kept space, and possibly dropped
spaces. -/
def spaceParen2Aux : Nat → List Char → List Char
  | _, [] => []
  | st, c :: cs =>
    if c = ')' then c :: spaceParen2Aux 1 cs
    else if c = ' ' then
      if st = 1 then c :: spaceParen2Aux 2 cs
      else if st = 2 then spaceParen2Aux 2 cs
      else c :: spaceParen2Aux 0 cs
    else c :: spaceParen2Aux 0 cs

def spaceParen2 (l : List Char) : List Char := spaceParen2Aux 0 l

/-- Model of KoreanTextProcessor.fix_korean_spacing
(src/korean_utils.py lines 68 to 80), at the character-list level. -/
def fix_korean_spacing_l (t : List Char) : List Char :=
  spaceParen2 (spaceParen1 (addSpAfterPunct (rmSpBeforePunct t)))

def fix_korean_spacing (s : String) : String :=
  String.mk (fix_korean_spacing_l s.data)

/-- Hangul syllable test of the compiled pattern at src/korean_utils.py
line 7 (one character of the class from the Hangul syllable block). -/
def isHangulSyllable (c : Char) : Bool :=
  decide ('가' ≤ c) && decide (c ≤ '힣')

def contains_korean_l (t : List Char) : Bool := t.any isHangulSyllable

/-- Model of KoreanTextProcessor.contains_korean
(src/korean_utils.py lines 14 to 16). -/
def contains_korean (s : String) : Bool := contains_korean_l s.data

/-- Endings tuple tested at src/korean_utils.py line 88. -/
def sentence_end_tokens : List String :=
  [".", "!", "?", "습니다", "입니다", "어요", "아요", "에요"]

/-- Honorific endings list from src/korean_utils.py line 11. -/
def honorific_endings : List String :=
  ["습니다", "입니다", "드립니다", "어요", "아요", "에요"]

/-- Question endings list from src/korean_utils.py line 12. -/
def question_endings : List String := ["까요", "나요", "어요", "습니까"]

/-- Interrogative words tested at src/korean_utils.py line 90. -/
def question_words : List String :=
  ["무엇", "어떻게", "왜", "언제", "어디서", "누가",
   "what", "how", "why", "when", "where", "who"]

/-- Python str.endswith: the last characters of t equal w. -/
def endsWithL (w t : List Char) : Bool :=
  decide (t.drop (t.length - w.length) = w)

def endsWithAnyL (ws : List String) (t : List Char) : Bool :=
  ws.any (fun w => endsWithL w.data t)

/-- Python startswith on character lists. -/
def startsWithL (w t : List Char) : Bool := decide (t.take w.length = w)

/-- Python substring containment (the in operator on str). -/
def containsSub (p : List Char) : List Char → Bool
  | [] => p.isEmpty
  | c :: cs => startsWithL p (c :: cs) || containsSub p cs

/-- Model of str.lower.  Char.toLower lowers the ASCII uppercase letters,
which agrees with the Python method on the ASCII and Hangul text this
processor handles. -/
def lowerL (t : List Char) : List Char := t.map Char.toLower

/-- Model of KoreanTextProcessor.fix_sentence_endings
(src/korean_utils.py lines 82 to 98), at the character-list level. -/
def fix_sentence_endings_l (t : List Char) : List Char :=
  if t = [] then t
  else if contains_korean_l t && !endsWithAnyL sentence_end_tokens t then
    if question_words.any (fun w => containsSub w.data (lowerL t)) then
      if question_endings.any (fun w => endsWithL w.data t) then t
      else t ++ ("까요?").data
    else
      if honorific_endings.any (fun w => endsWithL w.data t) then t
      else t ++ ("습니다.").data
  else t

def fix_sentence_endings (s : String) : String :=
  String.mk (fix_sentence_endings_l s.data)

/-- Token-removal, blank-line collapsing, space collapsing and trim:
the stages of post_process_response before the spacing fixes
(src/korean_utils.py lines 52 to 58). -/
def cleanupStages (s : String) : List Char :=
  pyStrip (collapseRuns ' ' (collapseRuns '\n' (stripTokens s.data)))

/-- Text after all cleanup and spacing stages of post_process_response,
before the sentence-ending stage. -/
def cleanedText (s : String) : List Char :=
  fix_korean_spacing_l (cleanupStages s)

/-- Model of KoreanTextProcessor.post_process_response
(src/korean_utils.py lines 47 to 66): on empty input return it; otherwise
remove special tokens, collapse newline runs, collapse space runs, strip,
fix spacing, fix sentence endings. -/
def post_process_response (s : String) : String :=
  if s = "" then s
  else String.mk (fix_sentence_endings_l (cleanedText s))

/-- System preamble block emitted by prepare_chat_context
(src/korean_utils.py line 33). -/
def system_message : String :=
  "<|im_start|>system\n당신은 한국어와 영어를 모두 지원하는 도움이 되는 AI 어시스턴트입니다. 사용자의 언어에 맞춰 적절하게 응답해주세요.<|im_end|>"

/-- Open assistant marker appended by prepare_chat_context
(src/korean_utils.py line 43). -/
def assistant_open : String := "<|im_start|>assistant\n"

/-- Wrapping of one history entry by the loop of prepare_chat_context
(src/korean_utils.py lines 36 to 40): user and assistant messages are
wrapped in role markers, any other role is skipped. -/
def wrapMessage (p : String × String) : Option String :=
  if p.1 = "user" then some ("<|im_start|>user\n" ++ p.2 ++ "<|im_end|>")
  else if p.1 = "assistant" then some ("<|im_start|>assistant\n" ++ p.2 ++ "<|im_end|>")
  else none

/-- Model of KoreanTextProcessor.prepare_chat_context
(src/korean_utils.py lines 28 to 45): system block, the last 10 history
entries wrapped in role markers, an open assistant marker, joined by
newlines.  The Python slice of the last 10 elements is List.drop
(length - 10). -/
def prepare_chat_context (chat_history : List (String × String)) : String :=
  String.intercalate "\n"
    (system_message ::
      ((chat_history.drop (chat_history.length - 10)).filterMap wrapMessage ++
        [assistant_open]))

/-- Single-quote character as a string (apostrophes interpolated by the
mock response templates of src/app.py). -/
def sq : String := String.mk [Char.ofNat 39]

/-- Korean mock chat responses of MockModelManager.generate_chat_response
(src/app.py lines 75 to 80); the first two interpolate the extracted last
message. -/
def korean_chat_responses (lm : String) : List String :=
  [sq ++ lm ++ sq ++ "에 대한 흥미로운 질문이네요! 자세히 설명해 드리겠습니다.",
   "말씀하신 " ++ sq ++ lm ++ sq ++ " 관련해서 도움을 드릴 수 있습니다. 어떤 부분이 궁금하신가요?",
   "네, 이해했습니다. 한국어로 자연스럽게 대화하며 도움을 드리겠습니다.",
   "좋은 질문입니다! 더 자세한 정보를 원하시면 언제든 말씀해 주세요."]

/-- English mock chat responses of MockModelManager.generate_chat_response
(src/app.py lines 82 to 87). -/
def english_chat_responses (lm : String) : List String :=
  ["That" ++ sq ++ "s an interesting question about " ++ sq ++ lm ++ sq ++
     "! Let me explain in detail.",
   "I can help you with " ++ sq ++ lm ++ sq ++
     ". What specific aspect would you like to know more about?",
   "Yes, I understand. I" ++ sq ++
     "m here to help you with natural conversation in both languages.",
   "Great question! Feel free to ask if you need more detailed information."]

/-- Hangul detection of src/app.py line 90: some character has a code
point between 0xAC00 and 0xD7A3. -/
def hasHangulCodePoint (s : String) : Bool :=
  s.data.any (fun c => decide (0xAC00 ≤ c.toNat) && decide (c.toNat ≤ 0xD7A3))

def userSep : String := "user\n"

def imEndTok : String := "<|im_end|>"

/-- Suffix after the last occurrence of sep (none when sep does not
occur): models taking the last element of a Python str.split, for a
separator with no nontrivial self-overlap such as the role separator
used in src/app.py line 71. -/
def dropThroughLast (sep : List Char) : List Char → Option (List Char)
  | [] => none
  | c :: cs =>
    match dropThroughLast sep cs with
    | some r => some r
    | none =>
      if sep.isPrefixOf (c :: cs) then some ((c :: cs).drop sep.length)
      else none

/-- Longest prefix before the first occurrence of sep (the whole list when
sep does not occur): models taking the first element of a Python
str.split, as in src/app.py line 71. -/
def takeUntilSep (sep : List Char) : List Char → List Char
  | [] => []
  | c :: cs => if sep.isPrefixOf (c :: cs) then [] else c :: takeUntilSep sep cs

/-- Extraction of the last user message from the conversation context
(src/app.py lines 70 to 73): text between the last user separator and
the next end marker, stripped; the fixed default when the separator is
absent. -/
def extract_last_message (ctx : String) : String :=
  match dropThroughLast userSep.data ctx.data with
  | some r => String.mk (pyStrip (takeUntilSep imEndTok.data r))
  | none => "Hello"

/-- Determinised random.choice over a four-element response list: the
index k names which element the random generator picked. -/
def choose4 (l : List String) (k : Fin 4) : String := l.getD k.val ""

/-- Model of MockModelManager.generate_chat_response
(src/app.py lines 65 to 93), with the random choice determinised by k. -/
def mock_generate_chat_response (ctx : String) (k : Fin 4) : String :=
  let lm := extract_last_message ctx
  if hasHangulCodePoint lm then choose4 (korean_chat_responses lm) k
  else choose4 (english_chat_responses lm) k

/-- Localised failure message appended when no response is produced
(src/app.py lines 424 to 429). -/
def chat_error_message (ko : Bool) : String :=
  if ko then "응답 생성에 실패했습니다. 다시 시도해주세요."
  else "Failed to generate response. Please try again."

/-- Python truthiness of an optional string: false for None and for the
empty string. -/
def pyTruthyOptStr : Option String → Bool
  | none => false
  | some s => !decide (s = "")

/-- Model of process_chat_message (src/app.py lines 383 to 440).
State and effects are made explicit: the function maps the prior chat
history to the new chat history.  ko is the interface language flag,
modelLoaded the conjunction tested at line 396, client the configured
model manager's generate_chat_response (an exception is the error case
of Except, caught at lines 408 to 410 and mapped to None), and k
determinises the random choice inside the mock fallback.  The embedding
is a total function: no exception escapes it. -/
def process_chat_message (ko modelLoaded : Bool)
    (client : String → Except Unit (Option String)) (k : Fin 4)
    (chat_history : List (String × String)) (user_input : String) :
    List (String × String) :=
  let h1 := chat_history ++ [("user", user_input)]
  let ctx := prepare_chat_context h1
  let tried : Option String :=
    if modelLoaded then
      match client ctx with
      | Except.ok r => r
      | Except.error _ => none
    else none
  let response : Option String :=
    if pyTruthyOptStr tried then tried
    else some (mock_generate_chat_response ctx k)
  match response with
  | some r =>
    if r = "" then h1 ++ [("assistant", chat_error_message ko)]
    else h1 ++ [("assistant", post_process_response r)]
  | none => h1 ++ [("assistant", chat_error_message ko)]

/-- One observed outcome of the HTTP POST of _make_chat_completion:
either a response with a status code and the optional text at
choices[0].message.content, or a raised transport exception. -/
inductive HttpOutcome where
  | resp (status : Nat) (content : Option String)
  | transportError
deriving DecidableEq

/-- Model of _make_chat_completion
(src/huggingface_model_manager.py lines 86 to 141).  The i-th HTTP
attempt observes responses i.  On status 200 the content is stripped and
returned (None when choices is absent); on 503 the code sleeps and calls
itself again, which the model performs with one unit of fuel per HTTP
attempt; 404, 400 and every other non-200 status return None, and a
transport exception is caught and mapped to None.  A result of none
means the call did not terminate within fuel attempts. -/
def make_chat_completion (responses : Nat → HttpOutcome) :
    Nat → Nat → Option (Option String)
  | 0, _ => none
  | fuel + 1, i =>
    match responses i with
    | HttpOutcome.transportError => some none
    | HttpOutcome.resp status content =>
      if status = 200 then
        some (content.map (fun c => String.mk (pyStrip c.data)))
      else if status = 503 then make_chat_completion responses fuel (i + 1)
      else some none

def is503 : HttpOutcome → Bool
  | HttpOutcome.resp status _ => decide (status = 503)
  | HttpOutcome.transportError => false

/-- Specification-side predicate (spec section 4.3): some character lies
in the Hangul syllable range U+AC00 to U+D7A3. -/
def SpecHangul (t : List Char) : Prop :=
  ∃ c ∈ t, 0xAC00 ≤ c.toNat ∧ c.toNat ≤ 0xD7A3

/-- Specification-side predicate: the text ends with one of the listed
words. -/
def SpecEndsWithAny (ws : List String) (t : List Char) : Prop :=
  ∃ w ∈ ws, ∃ u, t = u ++ w.data

/-- Specification-side predicate: the text contains one of the listed
words as a contiguous substring. -/
def SpecContainsAny (ws : List String) (t : List Char) : Prop :=
  ∃ w ∈ ws, ∃ u v, t = u ++ w.data ++ v

/-- Adjacent-pair condition on a character list. -/
def pairsOK (P : Char → Char → Bool) : List Char → Bool
  | [] => true
  | [_] => true
  | a :: b :: t => P a b && pairsOK P (b :: t)

/-- No two adjacent spaces. -/
def noTwoSpaces : Char → Char → Bool :=
  fun a b => !(decide (a = ' ') && decide (b = ' '))

/-- No space directly before punctuation. -/
def noSpacePunct : Char → Char → Bool :=
  fun a b => !(decide (a = ' ') && isPunctC b)

/-- No punctuation directly followed by a letter or Hangul syllable. -/
def noPunctWord : Char → Char → Bool :=
  fun a b => !(isPunctC a && isWordC b)

/-- Printable ASCII other than the vertical bar of role-marker tokens, or
a Hangul syllable. -/
def plainChar (c : Char) : Bool :=
  (decide (0x20 ≤ c.toNat) && decide (c.toNat ≤ 0x7E) && !decide (c = '|')) ||
  (decide (0xAC00 ≤ c.toNat) && decide (c.toNat ≤ 0xD7A3))

/-- Formalisation of already-clean ASCII/Hangul text (spec section 8):
printable ASCII and Hangul syllables only (no control characters, no
newline, no vertical bar), no leading or trailing space, no two adjacent
spaces, no space directly before punctuation, and no punctuation directly
followed by a letter or Hangul syllable without an intervening space. -/
def cleanAsciiHangul (s : String) : Bool :=
  s.data.all plainChar &&
  !decide (s.data.head? = some ' ') &&
  !decide (s.data.getLast? = some ' ') &&
  pairsOK noTwoSpaces s.data &&
  pairsOK noSpacePunct s.data &&
  pairsOK noPunctWord s.data

/-- Specification-side wrapping of one message in an explicit role-start
marker carrying its role and a role-end marker (spec section 4.2). -/
def roleBlock (p : String × String) : String :=
  "<|im_start|>" ++ p.1 ++ "\n" ++ p.2 ++ "<|im_end|>"

/-- Whether a list starts with punctuation (state of the right-to-left
scan of the space-before-punctuation substitution). -/
def headIsPunct : List Char → Bool
  | [] => false
  | c :: _ => isPunctC c

/-- Hangul syllable class of the source pattern coincides with the
code-point range of the specification. -/
theorem isHangulSyllable_iff (c : Char) :
    isHangulSyllable c = true ↔ 0xAC00 ≤ c.toNat ∧ c.toNat ≤ 0xD7A3 := by
  unfold isHangulSyllable
  rw [Bool.and_eq_true, decide_eq_true_eq, decide_eq_true_eq]
  exact and_congr Iff.rfl Iff.rfl

/-- Bridge between the source-level Hangul search and the
specification-side predicate. -/
theorem contains_korean_l_iff (t : List Char) :
    contains_korean_l t = true ↔ SpecHangul t := by
  unfold contains_korean_l SpecHangul
  rw [List.any_eq_true]
  exact exists_congr fun c => and_congr Iff.rfl (isHangulSyllable_iff c)

/-- C7: contains_korean returns true exactly when some character of the
input lies in the Hangul syllable range U+AC00 to U+D7A3; in particular
it is true on the Korean greeting and false on the English greeting. -/
theorem C7_contains_korean_range :
    (∀ s : String, contains_korean s = true ↔ SpecHangul s.data) ∧
    contains_korean ("안녕하세요") = true ∧ contains_korean ("Hello") = false :=
  ⟨fun s => contains_korean_l_iff s.data, by decide, by decide⟩

/-- C8: the context builder is deterministic, a pure function of the
message history: identical histories give byte-identical context
strings. -/
theorem C8_prepare_chat_context_deterministic
    (h1 h2 : List (String × String)) (heq : h1 = h2) :
    prepare_chat_context h1 = prepare_chat_context h2 := by
  rw [heq]

/-- Witness for C8 at a concrete history. -/
theorem C8_witness :
    prepare_chat_context [(("user" : String), ("안녕" : String))] =
      prepare_chat_context [(("user" : String), ("안녕" : String))] :=
  C8_prepare_chat_context_deterministic _ _ rfl

/-- C9: orchestration is append-only: after processing one user input the
history equals the old history with exactly the user message and one
assistant message appended at the end; no prior message is modified,
reordered or removed. -/
theorem C9_history_append_only (ko modelLoaded : Bool)
    (client : String → Except Unit (Option String)) (k : Fin 4)
    (h : List (String × String)) (input : String) :
    ∃ a : String, process_chat_message ko modelLoaded client k h input =
      h ++ [("user", input), ("assistant", a)] := by
  unfold process_chat_message
  dsimp only
  split
  · rename_i r _
    by_cases hr : r = ""
    · rw [if_pos hr]
      exact ⟨chat_error_message ko, by rw [List.append_assoc]; rfl⟩
    · rw [if_neg hr]
      exact ⟨post_process_response r, by rw [List.append_assoc]; rfl⟩
  · exact ⟨chat_error_message ko, by rw [List.append_assoc]; rfl⟩

/-- C6: result of the HTTP adapter for each kind of first response:
status 200 yields the stripped message content, 404 and 400 yield the
absence signal, any other non-200 non-503 status yields the absence
signal, and a caught transport exception yields the absence signal.  The
embedding is a total function, modelling that no exception escapes. -/
theorem C6_transport_mapped_to_absence (responses : Nat → HttpOutcome) :
    (∀ c, responses 0 = HttpOutcome.resp 200 (some c) →
      make_chat_completion responses 1 0 = some (some (String.mk (pyStrip c.data)))) ∧
    (∀ b, responses 0 = HttpOutcome.resp 404 b →
      make_chat_completion responses 1 0 = some none) ∧
    (∀ b, responses 0 = HttpOutcome.resp 400 b →
      make_chat_completion responses 1 0 = some none) ∧
    (∀ st b, st ≠ 200 → st ≠ 503 → responses 0 = HttpOutcome.resp st b →
      make_chat_completion responses 1 0 = some none) ∧
    (responses 0 = HttpOutcome.transportError →
      make_chat_completion responses 1 0 = some none) := by
  refine ⟨fun c hc => ?_, fun b hb => ?_, fun b hb => ?_,
    fun st b h200 h503 hst => ?_, fun ht => ?_⟩
  · unfold make_chat_completion; rw [hc]; rfl
  · unfold make_chat_completion; rw [hb]; rfl
  · unfold make_chat_completion; rw [hb]; rfl
  · unfold make_chat_completion
    rw [hst]
    dsimp only
    rw [if_neg h200, if_neg h503]
  · unfold make_chat_completion; rw [ht]

/-- Witness for C6: a 404 first response yields the absence signal. -/
theorem C6_witness :
    make_chat_completion (fun _ => HttpOutcome.resp 404 none) 1 0 = some none :=
  (C6_transport_mapped_to_absence (fun _ => HttpOutcome.resp 404 none)).2.1 none rfl

/-- Counterexample to C3 as stated: with a server that always answers
503, the call is not finished after two HTTP attempts, nor after three;
the code retries without bound instead of retrying once. -/
theorem C3_counterexample :
    make_chat_completion (fun _ => HttpOutcome.resp 503 none) 2 0 = none ∧
    make_chat_completion (fun _ => HttpOutcome.resp 503 none) 3 0 = none :=
  ⟨rfl, rfl⟩

/-- While every observed response is 503 the adapter keeps consuming
attempts. -/
theorem mcc_all503 (responses : Nat → HttpOutcome) :
    ∀ n j, (∀ i < n, is503 (responses (j + i)) = true) →
      make_chat_completion responses n j = none := by
  intro n
  induction n with
  | zero => intro j _; rfl
  | succ m ih =>
    intro j hall
    have h0 : is503 (responses j) = true := by
      have := hall 0 (Nat.succ_pos m)
      simpa using this
    unfold make_chat_completion
    cases hj : responses j with
    | transportError => rw [hj] at h0; simp [is503] at h0
    | resp st c =>
      rw [hj] at h0
      have hst : st = 503 := by simpa [is503] using h0
      subst hst
      dsimp only
      rw [if_neg (by decide : ¬(503 = 200)), if_pos rfl]
      exact ih (j + 1) fun i hi => by
        have := hall (i + 1) (Nat.succ_lt_succ hi)
        simpa [Nat.add_assoc, Nat.add_comm 1 i] using this

/-- After the run of 503 responses ends, the next attempt terminates the
call. -/
theorem mcc_stops_after_503_run (responses : Nat → HttpOutcome) :
    ∀ n j, (∀ i < n, is503 (responses (j + i)) = true) →
      is503 (responses (j + n)) = false →
      ∃ r, make_chat_completion responses (n + 1) j = some r := by
  intro n
  induction n with
  | zero =>
    intro j _ hstop
    simp only [Nat.add_zero] at hstop
    unfold make_chat_completion
    cases hj : responses j with
    | transportError => exact ⟨none, rfl⟩
    | resp st c =>
      rw [hj] at hstop
      have hst : st ≠ 503 := by
        intro h; rw [h] at hstop; simp [is503] at hstop
      by_cases h200 : st = 200
      · subst h200
        exact ⟨c.map (fun cc => String.mk (pyStrip cc.data)), by dsimp only; rw [if_pos rfl]⟩
      · exact ⟨none, by dsimp only; rw [if_neg h200, if_neg hst]⟩
  | succ m ih =>
    intro j hall hstop
    have h0 : is503 (responses j) = true := by
      have := hall 0 (Nat.succ_pos m)
      simpa using this
    cases hj : responses j with
    | transportError => rw [hj] at h0; simp [is503] at h0
    | resp st c =>
      rw [hj] at h0
      have hst : st = 503 := by simpa [is503] using h0
      subst hst
      have step : make_chat_completion responses (m + 1 + 1) j =
          make_chat_completion responses (m + 1) (j + 1) := by
        unfold make_chat_completion
        rw [hj]
        dsimp only
        rw [if_neg (by decide : ¬(503 = 200)), if_pos rfl]
        rfl
      rw [step]
      refine ih (j + 1) (fun i hi => ?_) ?_
      · have := hall (i + 1) (Nat.succ_lt_succ hi)
        simpa [Nat.add_assoc, Nat.add_comm 1 i] using this
      · have : j + 1 + m = j + (m + 1) := by omega
        rw [this]
        exact hstop

/-- C3 amended: on 503 the adapter waits and retries the same request,
and keeps retrying while 503 persists: when the first n responses are
503 and the next one is not, the call has not terminated after n HTTP
attempts and terminates at attempt n + 1.  In particular a lone 503
causes exactly one retry, but a persistent 503 retries without bound. -/
theorem C3_amended_retry_while_503 (responses : Nat → HttpOutcome) (n : Nat)
    (h503 : ∀ i < n, is503 (responses i) = true)
    (hstop : is503 (responses n) = false) :
    make_chat_completion responses n 0 = none ∧
    ∃ r, make_chat_completion responses (n + 1) 0 = some r := by
  constructor
  · exact mcc_all503 responses n 0 fun i hi => by simpa using h503 i hi
  · refine mcc_stops_after_503_run responses n 0 (fun i hi => by simpa using h503 i hi) ?_
    simpa using hstop

/-- Witness for the amended C3: one 503 followed by a 200 means exactly
one retry and then termination. -/
theorem C3_amended_witness :
    make_chat_completion
        (fun i => if i = 0 then HttpOutcome.resp 503 none
                  else HttpOutcome.resp 200 (some ("ok"))) 1 0 = none ∧
    ∃ r, make_chat_completion
        (fun i => if i = 0 then HttpOutcome.resp 503 none
                  else HttpOutcome.resp 200 (some ("ok"))) 2 0 = some r :=
  C3_amended_retry_while_503 _ 1 (by decide) (by decide)

/-- On user messages the source wrapping agrees with the
specification-side role block. -/
theorem wrapMessage_user (m : String) :
    wrapMessage (("user" : String), m) = some (roleBlock (("user" : String), m)) := rfl

/-- On assistant messages the source wrapping agrees with the
specification-side role block. -/
theorem wrapMessage_assistant (m : String) :
    wrapMessage (("assistant" : String), m) =
      some (roleBlock (("assistant" : String), m)) := rfl

/-- When every entry carries a user or assistant role, the wrapping loop
of the context builder keeps every entry, in order. -/
theorem filterMap_wrapMessage_eq_map (l : List (String × String))
    (hr : ∀ p ∈ l, p.1 = "user" ∨ p.1 = "assistant") :
    l.filterMap wrapMessage = l.map roleBlock := by
  induction l with
  | nil => rfl
  | cons p t ih =>
    have hp := hr p (List.mem_cons_self p t)
    have ht := ih fun q hq => hr q (List.mem_cons_of_mem p hq)
    obtain ⟨r, m⟩ := p
    rcases hp with h | h <;> simp only at h <;> subst h
    · rw [List.filterMap_cons_some (wrapMessage_user m), List.map_cons, ht]
    · rw [List.filterMap_cons_some (wrapMessage_assistant m), List.map_cons, ht]

/-- C1: for a history of user and assistant messages, the context builder
returns the newline-joined concatenation of one system block, exactly the
last 10 messages (all of them when the history has at most 10), each
wrapped in role-start and role-end markers for its role and in order,
followed by one open assistant marker; the output depends only on the
last 10 messages, so older messages do not occur in it. -/
theorem C1_prepare_chat_context_window (h : List (String × String))
    (hr : ∀ p ∈ h, p.1 = "user" ∨ p.1 = "assistant") :
    prepare_chat_context h =
      String.intercalate "\n"
        (system_message ::
          ((h.drop (h.length - 10)).map roleBlock ++ [assistant_open])) ∧
    (h.drop (h.length - 10)).length = min 10 h.length ∧
    prepare_chat_context h = prepare_chat_context (h.drop (h.length - 10)) := by
  have hlen : (h.drop (h.length - 10)).length = min 10 h.length := by
    rw [List.length_drop]; omega
  refine ⟨?_, hlen, ?_⟩
  · unfold prepare_chat_context
    rw [filterMap_wrapMessage_eq_map _
      (fun q hq => hr q (List.drop_subset _ _ hq))]
  · unfold prepare_chat_context
    have h0 : (h.drop (h.length - 10)).length - 10 = 0 := by
      rw [hlen]; omega
    rw [h0, List.drop_zero]

/-- Witness for C1 at a concrete one-message history. -/
theorem C1_witness :
    prepare_chat_context [(("user" : String), ("안녕" : String))] =
      String.intercalate "\n"
        (system_message ::
          (([(("user" : String), ("안녕" : String))].drop
              ([(("user" : String), ("안녕" : String))].length - 10)).map roleBlock ++
            [assistant_open])) ∧
    ([(("user" : String), ("안녕" : String))].drop
        ([(("user" : String), ("안녕" : String))].length - 10)).length =
      min 10 [(("user" : String), ("안녕" : String))].length ∧
    prepare_chat_context [(("user" : String), ("안녕" : String))] =
      prepare_chat_context
        ([(("user" : String), ("안녕" : String))].drop
          ([(("user" : String), ("안녕" : String))].length - 10)) :=
  C1_prepare_chat_context_window _ (by decide)

/-- The mock fallback generator always returns a nonempty string. -/
theorem mock_generate_chat_response_ne_empty (ctx : String) (k : Fin 4) :
    mock_generate_chat_response ctx k ≠ "" := by
  unfold mock_generate_chat_response choose4 korean_chat_responses english_chat_responses
  rcases k with ⟨v, hv⟩
  dsimp only
  interval_cases v <;> split <;>
    simp [String.ext_iff, String.data_append, sq, List.getD]

/-- C2: when the configured model client raises, returns None, or returns
the empty string on every call, the orchestrator still appends exactly
one assistant message, obtained from the mock fallback generator seeded
with the same conversation context; the embedding is a total function,
modelling that no exception escapes the orchestration boundary. -/
theorem C2_fallback_one_assistant_message (ko modelLoaded : Bool)
    (client : String → Except Unit (Option String)) (k : Fin 4)
    (h : List (String × String)) (input : String)
    (hfail : ∀ s, client s = Except.error () ∨ client s = Except.ok none ∨
      client s = Except.ok (some (""))) :
    process_chat_message ko modelLoaded client k h input =
      (h ++ [("user", input)]) ++
        [("assistant",
          post_process_response
            (mock_generate_chat_response
              (prepare_chat_context (h ++ [("user", input)])) k))] := by
  unfold process_chat_message
  dsimp only
  have hT : pyTruthyOptStr
      (if modelLoaded then
        match client (prepare_chat_context (h ++ [("user", input)])) with
        | Except.ok r => r
        | Except.error _ => none
      else none) = false := by
    cases modelLoaded
    · rfl
    · rcases hfail (prepare_chat_context (h ++ [("user", input)])) with hc | hc | hc <;>
        simp [hc, pyTruthyOptStr]
  rw [hT]
  simp only [Bool.false_eq_true, if_false]
  rw [if_neg (mock_generate_chat_response_ne_empty
    (prepare_chat_context (h ++ [("user", input)])) k)]

/-- Witness for C2: a client that always raises still yields one
assistant message from the mock fallback. -/
theorem C2_witness :
    process_chat_message true true (fun _ => Except.error ()) 0 []
        ("안녕") =
      (([] : List (String × String)) ++ [("user", ("안녕" : String))]) ++
        [("assistant",
          post_process_response
            (mock_generate_chat_response
              (prepare_chat_context
                (([] : List (String × String)) ++ [("user", ("안녕" : String))])) 0))] :=
  C2_fallback_one_assistant_message true true _ 0 [] _ (fun _ => Or.inl rfl)

/-- The determinised random choice over a four-element list picks a
member of the list. -/
theorem choose4_mem_four (a b c d : String) (k : Fin 4) :
    choose4 [a, b, c, d] k ∈ [a, b, c, d] := by
  rcases k with ⟨v, hv⟩
  unfold choose4
  dsimp only
  interval_cases v <;> simp [List.getD]

/-- A character not satisfying the predicate survives dropWhile. -/
theorem mem_dropWhile_of_neg (p : Char → Bool) (l : List Char) (c : Char)
    (hc : c ∈ l) (hp : p c = false) : c ∈ l.dropWhile p := by
  induction l with
  | nil => cases hc
  | cons d t ih =>
    rw [List.dropWhile_cons]
    by_cases hd : p d = true
    · rw [if_pos hd]
      rcases List.mem_cons.mp hc with he | ht
      · subst he; rw [hd] at hp; cases hp
      · exact ih ht
    · rw [if_neg hd]; exact hc

/-- A non-whitespace character occurs in the stripped list exactly when
it occurs in the original list. -/
theorem mem_pyStrip_iff (c : Char) (hws : isPyWs c = false) (l : List Char) :
    c ∈ pyStrip l ↔ c ∈ l := by
  unfold pyStrip
  constructor
  · intro h
    have h1 := (List.dropWhile_sublist isPyWs).subset (List.mem_reverse.mp h)
    exact (List.dropWhile_sublist isPyWs).subset (List.mem_reverse.mp h1)
  · intro h
    apply List.mem_reverse.mpr
    apply mem_dropWhile_of_neg _ _ _ _ hws
    apply List.mem_reverse.mpr
    exact mem_dropWhile_of_neg _ _ _ h hws

/-- Hangul syllables are not whitespace. -/
theorem hangul_not_ws (c : Char) (h : 0xAC00 ≤ c.toNat) : isPyWs c = false := by
  unfold isPyWs
  cases hb : pyWhitespace.contains c
  · rfl
  · have hm : c ∈ pyWhitespace := by simpa using hb
    have hlt : ∀ x ∈ pyWhitespace, x.toNat < 0xAC00 := by decide
    have := hlt c hm
    omega

/-- Stripping whitespace from the extracted message does not change
whether it contains a Hangul syllable. -/
theorem hasHangulCodePoint_pyStrip (u : List Char) :
    hasHangulCodePoint (String.mk (pyStrip u)) = true ↔ SpecHangul u := by
  unfold hasHangulCodePoint SpecHangul
  rw [show (String.mk (pyStrip u)).data = pyStrip u from rfl, List.any_eq_true]
  constructor
  · rintro ⟨c, hc, hp⟩
    rw [Bool.and_eq_true, decide_eq_true_eq, decide_eq_true_eq] at hp
    exact ⟨c, (mem_pyStrip_iff c (hangul_not_ws c hp.1) u).mp hc, hp⟩
  · rintro ⟨c, hc, hp⟩
    refine ⟨c, (mem_pyStrip_iff c (hangul_not_ws c hp.1) u).mpr hc, ?_⟩
    rw [Bool.and_eq_true, decide_eq_true_eq, decide_eq_true_eq]
    exact ⟨hp.1, hp.2⟩

/-- Strings with distinct first characters are distinct. -/
theorem head_ne_imp_ne (s t : String) (a b : Char) (hs : s.data.head? = some a)
    (ht : t.data.head? = some b) (hab : a ≠ b) : s ≠ t := by
  intro h
  rw [h, ht] at hs
  exact hab (Option.some.inj hs).symm

/-- No English mock response equals a Korean mock response: their first
characters differ, whatever messages are interpolated. -/
theorem english_korean_disjoint (lm lm2 : String) :
    ∀ e ∈ english_chat_responses lm, ∀ w ∈ korean_chat_responses lm2, e ≠ w := by
  intro e he w hw
  simp only [english_chat_responses, korean_chat_responses, List.mem_cons,
    List.not_mem_nil, or_false] at he hw
  rcases he with he | he | he | he <;> subst he <;>
    rcases hw with hw | hw | hw | hw <;> subst hw <;>
      exact head_ne_imp_ne _ _ _ _ rfl rfl (by decide)

/-- C10: the mock generator returns a member of the Korean response set
if and only if the substring between the last user separator and the
following end marker contains a Hangul syllable in the range U+AC00 to
U+D7A3, and otherwise returns a member of the fixed English response
set; when the context has no user separator, the extracted message
defaults to the fixed greeting and an English-set response is
returned. -/
theorem C10_mock_language_choice (ctx : String) (k : Fin 4) :
    (∀ r, dropThroughLast userSep.data ctx.data = some r →
      (mock_generate_chat_response ctx k ∈
          korean_chat_responses (extract_last_message ctx) ↔
        SpecHangul (takeUntilSep imEndTok.data r)) ∧
      (¬SpecHangul (takeUntilSep imEndTok.data r) →
        mock_generate_chat_response ctx k ∈
          english_chat_responses (extract_last_message ctx))) ∧
    (dropThroughLast userSep.data ctx.data = none →
      extract_last_message ctx = "Hello" ∧
      mock_generate_chat_response ctx k ∈ english_chat_responses ("Hello")) := by
  constructor
  · intro r hr
    have hextract : extract_last_message ctx =
        String.mk (pyStrip (takeUntilSep imEndTok.data r)) := by
      unfold extract_last_message
      rw [hr]
    have hEn : ¬SpecHangul (takeUntilSep imEndTok.data r) →
        mock_generate_chat_response ctx k ∈
          english_chat_responses (extract_last_message ctx) := by
      intro hno
      have hb : hasHangulCodePoint (extract_last_message ctx) = false := by
        rw [hextract]
        cases hcc : hasHangulCodePoint (String.mk (pyStrip (takeUntilSep imEndTok.data r)))
        · rfl
        · exact absurd ((hasHangulCodePoint_pyStrip _).mp hcc) hno
      have hmock : mock_generate_chat_response ctx k =
          choose4 (english_chat_responses (extract_last_message ctx)) k := by
        unfold mock_generate_chat_response
        dsimp only
        rw [hb]
        rfl
      rw [hmock]
      exact choose4_mem_four _ _ _ _ k
    refine ⟨⟨?_, ?_⟩, hEn⟩
    · intro hmem
      by_contra hno
      exact english_korean_disjoint _ _ _ (hEn hno) _ hmem rfl
    · intro hsh
      have hb : hasHangulCodePoint (extract_last_message ctx) = true := by
        rw [hextract]
        exact (hasHangulCodePoint_pyStrip _).mpr hsh
      have hmock : mock_generate_chat_response ctx k =
          choose4 (korean_chat_responses (extract_last_message ctx)) k := by
        unfold mock_generate_chat_response
        dsimp only
        rw [hb]
        rfl
      rw [hmock]
      exact choose4_mem_four _ _ _ _ k
  · intro hnone
    have hex : extract_last_message ctx = "Hello" := by
      unfold extract_last_message
      rw [hnone]
    refine ⟨hex, ?_⟩
    have hmock : mock_generate_chat_response ctx k =
        choose4 (english_chat_responses ("Hello")) k := by
      unfold mock_generate_chat_response
      dsimp only
      rw [hex]
      rfl
    rw [hmock]
    exact choose4_mem_four _ _ _ _ k

/-- Witness for C10: a context whose last user message is Korean makes
the mock generator answer from the Korean response set. -/
theorem C10_witness :
    mock_generate_chat_response
        ("<|im_start|>user\n안녕<|im_end|>\n<|im_start|>assistant\n") 0 ∈
      korean_chat_responses
        (extract_last_message
          ("<|im_start|>user\n안녕<|im_end|>\n<|im_start|>assistant\n")) :=
  (((C10_mock_language_choice
      ("<|im_start|>user\n안녕<|im_end|>\n<|im_start|>assistant\n") 0).1
    _ rfl).1).mpr ((hasHangulCodePoint_pyStrip _).mp (by decide))

/-- The adjacent-pair condition passes to the tail. -/
theorem pairsOK_tail (P : Char → Char → Bool) (a : Char) (l : List Char)
    (h : pairsOK P (a :: l) = true) : pairsOK P l = true := by
  cases l with
  | nil => rfl
  | cons b t =>
    unfold pairsOK at h
    rw [Bool.and_eq_true] at h
    exact h.2

/-- The adjacent-pair condition holds of the first two elements. -/
theorem pairsOK_head (P : Char → Char → Bool) (a b : Char) (t : List Char)
    (h : pairsOK P (a :: b :: t) = true) : P a b = true := by
  unfold pairsOK at h
  rw [Bool.and_eq_true] at h
  exact h.1

/-- The adjacent-pair condition is preserved by appending lists whose
boundary pair satisfies it. -/
theorem pairsOK_append (P : Char → Char → Bool) (s : List Char)
    (hs : pairsOK P s = true) :
    ∀ x, pairsOK P x = true →
      (∀ a b, x.getLast? = some a → s.head? = some b → P a b = true) →
      pairsOK P (x ++ s) = true := by
  intro x
  induction x with
  | nil => intro _ _; simpa using hs
  | cons a x' ih =>
    intro hx hbd
    cases x' with
    | nil =>
      cases s with
      | nil => rfl
      | cons b t =>
        show pairsOK P (a :: b :: t) = true
        unfold pairsOK
        rw [Bool.and_eq_true]
        exact ⟨hbd a b rfl rfl, hs⟩
    | cons a2 x'' =>
      show pairsOK P (a :: a2 :: (x'' ++ s)) = true
      unfold pairsOK
      rw [Bool.and_eq_true]
      refine ⟨pairsOK_head P a a2 x'' hx, ?_⟩
      have hih := ih (pairsOK_tail P a (a2 :: x'') hx)
        (fun p q hp hq => hbd p q (by rw [List.getLast?_cons_cons]; exact hp) hq)
      simpa using hih

/-- Clean characters are not vertical bars. -/
theorem plainChar_ne_bar (c : Char) (h : plainChar c = true) : ¬(c = '|') := by
  intro he
  subst he
  revert h
  decide

/-- Clean character lists contain no newline. -/
theorem plainChar_no_newline (l : List Char)
    (h : ∀ c ∈ l, plainChar c = true) : '\n' ∉ l := by
  intro hmem
  have := h _ hmem
  revert this
  decide

/-- The only whitespace character among clean characters is the space. -/
theorem plainChar_ws_space (c : Char) (hp : plainChar c = true)
    (hws : isPyWs c = true) : c = ' ' := by
  have hm : c ∈ pyWhitespace := by
    unfold isPyWs at hws
    simpa using hws
  have : ∀ x ∈ pyWhitespace, plainChar x = true → x = ' ' := by decide
  exact this c hm hp

/-- Token removal is the identity on bar-free text. -/
theorem stripTokens_eq_self (l : List Char) (h : ∀ c ∈ l, ¬(c = '|')) :
    stripTokens l = l := by
  induction l with
  | nil => simp [stripTokens]
  | cons c cs ih =>
    have hcond : ¬(c = '<' ∧ cs.head? = some '|') := by
      rintro ⟨-, hh⟩
      cases cs with
      | nil => simp at hh
      | cons d t =>
        rw [List.head?_cons] at hh
        exact h d (List.mem_cons_of_mem c (List.mem_cons_self d t))
          (Option.some.inj hh)
    simp only [stripTokens]
    rw [if_neg hcond]
    rw [ih fun x hx => h x (List.mem_cons_of_mem c hx)]

/-- Run collapsing is the identity when the collapsed character does not
occur. -/
theorem collapseRuns_eq_self_not_mem (ch : Char) (l : List Char)
    (h : ch ∉ l) : collapseRuns ch l = l := by
  induction l with
  | nil => rfl
  | cons c cs ih =>
    cases cs with
    | nil => rfl
    | cons d t =>
      have hc : ¬(c = ch ∧ d = ch) := by
        rintro ⟨hcc, -⟩
        exact h (hcc ▸ List.mem_cons_self c (d :: t))
      unfold collapseRuns
      rw [if_neg hc]
      rw [ih fun hm => h (List.mem_cons_of_mem c hm)]

/-- Space-run collapsing is the identity when no two spaces are
adjacent. -/
theorem collapseRuns_space_eq_self (l : List Char)
    (h : pairsOK noTwoSpaces l = true) : collapseRuns ' ' l = l := by
  induction l with
  | nil => rfl
  | cons c cs ih =>
    cases cs with
    | nil => rfl
    | cons d t =>
      have hp := pairsOK_head noTwoSpaces c d t h
      have hc : ¬(c = ' ' ∧ d = ' ') := by
        rintro ⟨hc1, hc2⟩
        subst hc1; subst hc2
        simp [noTwoSpaces] at hp
      unfold collapseRuns
      rw [if_neg hc]
      rw [ih (pairsOK_tail noTwoSpaces c (d :: t) h)]

/-- Stripping is the identity on text with clean characters and no
leading or trailing space. -/
theorem pyStrip_eq_self (l : List Char)
    (hh : l.head? ≠ some ' ') (hl : l.getLast? ≠ some ' ')
    (hplain : ∀ c ∈ l, plainChar c = true) : pyStrip l = l := by
  unfold pyStrip
  have h1 : l.dropWhile isPyWs = l := by
    cases l with
    | nil => rfl
    | cons c cs =>
      rw [List.dropWhile_cons]
      have hcf : isPyWs c = false := by
        cases hws : isPyWs c
        · rfl
        · have hsp := plainChar_ws_space c
            (hplain c (List.mem_cons_self c cs)) hws
          exact absurd (by rw [List.head?_cons, hsp]) hh
      rw [hcf]
      simp
  rw [h1]
  have h2 : l.reverse.dropWhile isPyWs = l.reverse := by
    cases hr : l.reverse with
    | nil => rfl
    | cons c cs =>
      rw [List.dropWhile_cons]
      have hc : c ∈ l := by
        rw [← List.mem_reverse, hr]
        exact List.mem_cons_self c cs
      have hlast : l.getLast? = some c := by
        rw [← List.head?_reverse, hr, List.head?_cons]
      have hcf : isPyWs c = false := by
        cases hws : isPyWs c
        · rfl
        · have hsp := plainChar_ws_space c (hplain c hc) hws
          exact absurd (by rw [hlast, hsp]) hl
      rw [hcf]
      simp
  rw [h2, List.reverse_reverse]

/-- The right-to-left scan for spaces before punctuation is the identity
scan when no space stands directly before punctuation. -/
theorem rmSpBeforePunctAux_id (l : List Char)
    (h : pairsOK noSpacePunct l = true) :
    rmSpBeforePunctAux l = (l, headIsPunct l) := by
  induction l with
  | nil => rfl
  | cons c cs ih =>
    have ht := ih (pairsOK_tail noSpacePunct c cs h)
    unfold rmSpBeforePunctAux
    rw [ht]
    by_cases hc : c = ' '
    · subst hc
      rw [if_pos rfl]
      have hf : headIsPunct cs = false := by
        cases cs with
        | nil => rfl
        | cons d t =>
          have hp := pairsOK_head noSpacePunct ' ' d t h
          simp [noSpacePunct] at hp
          simpa [headIsPunct] using hp
      rw [hf]
      rfl
    · rw [if_neg hc]
      rfl

/-- Space-before-punctuation removal is the identity when no space stands
directly before punctuation. -/
theorem rmSpBeforePunct_eq_self (l : List Char)
    (h : pairsOK noSpacePunct l = true) : rmSpBeforePunct l = l := by
  unfold rmSpBeforePunct
  rw [rmSpBeforePunctAux_id l h]

/-- Space insertion after punctuation is the identity when no punctuation
is directly followed by a letter or Hangul syllable. -/
theorem addSpAfterPunct_eq_self (l : List Char)
    (h : pairsOK noPunctWord l = true) : addSpAfterPunct l = l := by
  induction l with
  | nil => rfl
  | cons c cs ih =>
    cases cs with
    | nil => rfl
    | cons d t =>
      have hp := pairsOK_head noPunctWord c d t h
      have hc : ¬(isPunctC c = true ∧ isWordC d = true) := by
        rintro ⟨h1, h2⟩
        unfold noPunctWord at hp
        rw [h1, h2] at hp
        simp at hp
      unfold addSpAfterPunct
      rw [if_neg hc]
      rw [ih (pairsOK_tail noPunctWord c (d :: t) h)]

/-- Space normalisation before opening parentheses is the identity when
no two spaces are adjacent. -/
theorem spaceParen1_eq_self (l : List Char)
    (h : pairsOK noTwoSpaces l = true) : spaceParen1 l = l := by
  induction l with
  | nil => rfl
  | cons c cs ih =>
    have hcond : (c = ' ' && spaceThenParen cs) = false := by
      by_cases hc : c = ' '
      · subst hc
        cases cs with
        | nil => rfl
        | cons d t =>
          by_cases hd : d = ' '
          · subst hd
            have hp := pairsOK_head noTwoSpaces ' ' ' ' t h
            simp [noTwoSpaces] at hp
          · have hstp : spaceThenParen (d :: t) = false := by
              simp [spaceThenParen, hd]
            rw [hstp]
            simp
      · simp [hc]
    unfold spaceParen1
    rw [hcond]
    simp only [Bool.false_eq_true, if_false]
    rw [ih (pairsOK_tail noTwoSpaces c cs h)]

/-- The state machine normalising spaces after closing parentheses is the
identity when no two spaces are adjacent, provided state 2 is not entered
in front of a space. -/
theorem spaceParen2Aux_id (l : List Char)
    (h : pairsOK noTwoSpaces l = true) :
    ∀ st, (st = 2 → l.head? ≠ some ' ') → spaceParen2Aux st l = l := by
  induction l with
  | nil => intro st _; rfl
  | cons c cs ih =>
    intro st hst
    unfold spaceParen2Aux
    by_cases hc : c = ')'
    · rw [if_pos hc]
      rw [ih (pairsOK_tail noTwoSpaces c cs h) 1 (fun h1 => absurd h1 (by decide))]
    · rw [if_neg hc]
      by_cases hsp : c = ' '
      · rw [if_pos hsp]
        by_cases h1 : st = 1
        · rw [if_pos h1]
          have hcs : cs.head? ≠ some ' ' := by
            cases cs with
            | nil => simp
            | cons d t =>
              rw [List.head?_cons]
              intro hd
              have hd' := Option.some.inj hd
              have hp := pairsOK_head noTwoSpaces c d t h
              rw [hsp, hd'] at hp
              simp [noTwoSpaces] at hp
          rw [ih (pairsOK_tail noTwoSpaces c cs h) 2 (fun _ => hcs)]
        · rw [if_neg h1]
          by_cases h2 : st = 2
          · exact absurd (by rw [List.head?_cons, hsp]) (hst h2)
          · rw [if_neg h2]
            rw [ih (pairsOK_tail noTwoSpaces c cs h) 0 (fun h0 => absurd h0 (by decide))]
      · rw [if_neg hsp]
        rw [ih (pairsOK_tail noTwoSpaces c cs h) 0 (fun h0 => absurd h0 (by decide))]

/-- Space normalisation after closing parentheses is the identity when no
two spaces are adjacent. -/
theorem spaceParen2_eq_self (l : List Char)
    (h : pairsOK noTwoSpaces l = true) : spaceParen2 l = l :=
  spaceParen2Aux_id l h 0 (fun h0 => absurd h0 (by decide))

/-- The clean-text predicate unpacked into its six conditions. -/
theorem cleanAsciiHangul_iff (s : String) :
    cleanAsciiHangul s = true ↔
      ((∀ c ∈ s.data, plainChar c = true) ∧
       s.data.head? ≠ some ' ' ∧
       s.data.getLast? ≠ some ' ' ∧
       pairsOK noTwoSpaces s.data = true ∧
       pairsOK noSpacePunct s.data = true ∧
       pairsOK noPunctWord s.data = true) := by
  unfold cleanAsciiHangul
  simp only [Bool.and_eq_true, List.all_eq_true, Bool.not_eq_true',
    decide_eq_false_iff_not]
  constructor
  · rintro ⟨⟨⟨⟨⟨h1, h2⟩, h3⟩, h4⟩, h5⟩, h6⟩
    exact ⟨h1, h2, h3, h4, h5, h6⟩
  · rintro ⟨h1, h2, h3, h4, h5, h6⟩
    exact ⟨⟨⟨⟨⟨h1, h2⟩, h3⟩, h4⟩, h5⟩, h6⟩

/-- On clean text every cleanup and spacing stage of
post_process_response is the identity. -/
theorem cleanedText_eq_of_clean (s : String)
    (h : cleanAsciiHangul s = true) : cleanedText s = s.data := by
  obtain ⟨hplain, hhead, hlast, hp1, hp2, hp3⟩ := (cleanAsciiHangul_iff s).mp h
  unfold cleanedText cleanupStages fix_korean_spacing_l
  rw [stripTokens_eq_self _ (fun c hc => plainChar_ne_bar c (hplain c hc)),
    collapseRuns_eq_self_not_mem '\n' _ (plainChar_no_newline _ hplain),
    collapseRuns_space_eq_self _ hp1,
    pyStrip_eq_self _ hhead hlast hplain,
    rmSpBeforePunct_eq_self _ hp2,
    addSpAfterPunct_eq_self _ hp3,
    spaceParen1_eq_self _ hp1,
    spaceParen2_eq_self _ hp1]

/-- post_process_response is the sentence-ending stage applied to the
cleaned text, for every input including the empty string. -/
theorem post_process_response_eq_fse (s : String) :
    post_process_response s =
      String.mk (fix_sentence_endings_l (cleanedText s)) := by
  unfold post_process_response
  by_cases hs : s = ""
  · rw [if_pos hs, hs]
    have h0 : cleanedText ("") = [] := cleanedText_eq_of_clean ("") (by decide)
    rw [h0]
    rfl
  · rw [if_neg hs]

/-- Python endswith agrees with the suffix decomposition. -/
theorem endsWithL_iff (w t : List Char) :
    endsWithL w t = true ↔ ∃ u, t = u ++ w := by
  unfold endsWithL
  rw [decide_eq_true_eq]
  constructor
  · intro h
    refine ⟨t.take (t.length - w.length), ?_⟩
    conv_lhs => rw [← List.take_append_drop (t.length - w.length) t]
    rw [h]
  · rintro ⟨u, rfl⟩
    have hlen : (u ++ w).length - w.length = u.length := by
      rw [List.length_append]; omega
    rw [hlen, List.drop_left]

/-- The endswith test over a word list agrees with the
specification-side predicate. -/
theorem endsWithAnyL_iff (ws : List String) (t : List Char) :
    endsWithAnyL ws t = true ↔ SpecEndsWithAny ws t := by
  unfold endsWithAnyL SpecEndsWithAny
  rw [List.any_eq_true]
  exact exists_congr fun w => and_congr Iff.rfl (endsWithL_iff w.data t)

/-- Python startswith agrees with the prefix decomposition. -/
theorem startsWithL_iff (w t : List Char) :
    startsWithL w t = true ↔ ∃ v, t = w ++ v := by
  unfold startsWithL
  rw [decide_eq_true_eq]
  constructor
  · intro h
    refine ⟨t.drop w.length, ?_⟩
    conv_lhs => rw [← List.take_append_drop w.length t]
    rw [h]
  · rintro ⟨v, rfl⟩
    exact List.take_left w v

/-- Python substring containment agrees with the infix decomposition. -/
theorem containsSub_iff (p : List Char) (l : List Char) :
    containsSub p l = true ↔ ∃ u v, l = u ++ p ++ v := by
  induction l with
  | nil =>
    unfold containsSub
    rw [List.isEmpty_iff]
    constructor
    · intro hp
      exact ⟨[], [], by simp [hp]⟩
    · rintro ⟨u, v, huv⟩
      have h1 := List.append_eq_nil.mp huv.symm
      exact (List.append_eq_nil.mp h1.1).2
  | cons c cs ih =>
    unfold containsSub
    rw [Bool.or_eq_true, startsWithL_iff, ih]
    constructor
    · rintro (⟨v, hv⟩ | ⟨u, v, huv⟩)
      · exact ⟨[], v, by simpa using hv⟩
      · exact ⟨c :: u, v, by simp [huv]⟩
    · rintro ⟨u, v, huv⟩
      cases u with
      | nil => exact Or.inl ⟨v, by simpa using huv⟩
      | cons a u' =>
        right
        rw [List.cons_append, List.cons_append] at huv
        have h2 := (List.cons_eq_cons.mp huv).2
        exact ⟨u', v, by simpa using h2⟩

/-- The interrogative-word test agrees with the specification-side
substring predicate. -/
theorem containsAny_iff (ws : List String) (l : List Char) :
    (ws.any fun w => containsSub w.data l) = true ↔ SpecContainsAny ws l := by
  unfold SpecContainsAny
  rw [List.any_eq_true]
  exact exists_congr fun w => and_congr Iff.rfl (containsSub_iff w.data l)

/-- Full case characterisation of the sentence-ending stage
(src/korean_utils.py lines 82 to 98) in terms of the specification-side
predicates of the claim: an ending is appended exactly when the text
contains Hangul, does not end in a terminal-punctuation or polite token,
and does not already end in a question-ending morpheme (question case,
appending the question ending) or in an honorific ending (declarative
case, appending the declarative ending). -/
theorem fse_characterisation (t : List Char) :
    (¬(SpecHangul t ∧ ¬SpecEndsWithAny sentence_end_tokens t) →
      fix_sentence_endings_l t = t) ∧
    (SpecHangul t ∧ ¬SpecEndsWithAny sentence_end_tokens t →
      (SpecContainsAny question_words (lowerL t) →
        (¬SpecEndsWithAny question_endings t →
          fix_sentence_endings_l t = t ++ ("까요?").data) ∧
        (SpecEndsWithAny question_endings t → fix_sentence_endings_l t = t)) ∧
      (¬SpecContainsAny question_words (lowerL t) →
        (¬SpecEndsWithAny honorific_endings t →
          fix_sentence_endings_l t = t ++ ("습니다.").data) ∧
        (SpecEndsWithAny honorific_endings t →
          fix_sentence_endings_l t = t))) := by
  by_cases ht : t = []
  · subst ht
    refine ⟨fun _ => rfl, fun hcond => ?_⟩
    obtain ⟨c, hc, -⟩ := hcond.1
    exact absurd hc (List.not_mem_nil c)
  · unfold fix_sentence_endings_l
    rw [if_neg ht]
    by_cases hA : (contains_korean_l t && !endsWithAnyL sentence_end_tokens t) = true
    · have hA' := hA
      rw [Bool.and_eq_true, Bool.not_eq_true'] at hA'
      have hcond : SpecHangul t ∧ ¬SpecEndsWithAny sentence_end_tokens t := by
        refine ⟨(contains_korean_l_iff t).mp hA'.1, fun hq => ?_⟩
        rw [(endsWithAnyL_iff _ t).mpr hq] at hA'
        exact Bool.true_eq_false.mp hA'.2
      rw [if_pos hA]
      refine ⟨fun hno => absurd hcond hno, fun _ => ⟨fun hint => ?_, fun hnint => ?_⟩⟩
      · have hQ : (question_words.any fun w => containsSub w.data (lowerL t)) = true :=
          (containsAny_iff question_words (lowerL t)).mpr hint
        rw [if_pos hQ]
        constructor
        · intro hnq
          have hE : (question_endings.any fun w => endsWithL w.data t) = false := by
            cases hE : (question_endings.any fun w => endsWithL w.data t)
            · rfl
            · exact absurd ((endsWithAnyL_iff question_endings t).mp hE) hnq
          rw [if_neg (by rw [hE]; exact Bool.false_ne_true)]
        · intro hq
          rw [if_pos (show (question_endings.any fun w => endsWithL w.data t) = true from
            (endsWithAnyL_iff question_endings t).mpr hq)]
      · have hQ : (question_words.any fun w => containsSub w.data (lowerL t)) = false := by
          cases hQ : (question_words.any fun w => containsSub w.data (lowerL t))
          · rfl
          · exact absurd ((containsAny_iff question_words (lowerL t)).mp hQ) hnint
        rw [if_neg (by rw [hQ]; exact Bool.false_ne_true)]
        constructor
        · intro hnh
          have hH : (honorific_endings.any fun w => endsWithL w.data t) = false := by
            cases hH : (honorific_endings.any fun w => endsWithL w.data t)
            · rfl
            · exact absurd ((endsWithAnyL_iff honorific_endings t).mp hH) hnh
          rw [if_neg (by rw [hH]; exact Bool.false_ne_true)]
        · intro hh
          rw [if_pos (show (honorific_endings.any fun w => endsWithL w.data t) = true from
            (endsWithAnyL_iff honorific_endings t).mpr hh)]
    · rw [if_neg hA]
      refine ⟨fun _ => rfl, fun hcond => absurd ?_ hA⟩
      rw [Bool.and_eq_true, Bool.not_eq_true']
      refine ⟨(contains_korean_l_iff t).mpr hcond.1, ?_⟩
      cases hE : endsWithAnyL sentence_end_tokens t
      · rfl
      · exact absurd ((endsWithAnyL_iff sentence_end_tokens t).mp hE) hcond.2

/-- C4 amended: post_process_response equals the cleanup stages (token
removal, newline-run and space-run collapsing, trim) followed by the
spacing fixes, and then: exactly when the cleaned text contains Hangul
and does not end in terminal punctuation or a polite token, a
question-form ending is appended when an interrogative word of the fixed
bilingual list occurs and the text does not already end in a
question-ending morpheme, a declarative polite ending is appended when
no interrogative word occurs and the text does not already end in an
honorific ending, and nothing is appended in the two remaining cases
(already ending in a question-ending morpheme with an interrogative word
present, or already ending in an honorific ending). -/
theorem C4_amended_post_process_response (s : String) :
    (¬(SpecHangul (cleanedText s) ∧
        ¬SpecEndsWithAny sentence_end_tokens (cleanedText s)) →
      post_process_response s = String.mk (cleanedText s)) ∧
    (SpecHangul (cleanedText s) ∧
        ¬SpecEndsWithAny sentence_end_tokens (cleanedText s) →
      (SpecContainsAny question_words (lowerL (cleanedText s)) →
        (¬SpecEndsWithAny question_endings (cleanedText s) →
          post_process_response s =
            String.mk (cleanedText s ++ ("까요?").data)) ∧
        (SpecEndsWithAny question_endings (cleanedText s) →
          post_process_response s = String.mk (cleanedText s))) ∧
      (¬SpecContainsAny question_words (lowerL (cleanedText s)) →
        (¬SpecEndsWithAny honorific_endings (cleanedText s) →
          post_process_response s =
            String.mk (cleanedText s ++ ("습니다.").data)) ∧
        (SpecEndsWithAny honorific_endings (cleanedText s) →
          post_process_response s = String.mk (cleanedText s)))) := by
  have hpost := post_process_response_eq_fse s
  have hc := fse_characterisation (cleanedText s)
  refine ⟨fun hno => by rw [hpost, hc.1 hno],
    fun hcond =>
      ⟨fun hint =>
        ⟨fun hnq => by rw [hpost, ((hc.2 hcond).1 hint).1 hnq],
         fun hq => by rw [hpost, ((hc.2 hcond).1 hint).2 hq]⟩,
       fun hnint =>
        ⟨fun hnh => by rw [hpost, ((hc.2 hcond).2 hnint).1 hnh],
         fun hh => by rw [hpost, ((hc.2 hcond).2 hnint).2 hh]⟩⟩⟩

/-- Witness for the amended C4: a plain Korean greeting gets the
declarative polite ending appended. -/
theorem C4_amended_witness :
    post_process_response ("안녕") =
      String.mk (cleanedText ("안녕") ++ ("습니다.").data) := by
  have hct : cleanedText ("안녕") = ("안녕").data :=
    cleanedText_eq_of_clean ("안녕") (by decide)
  refine (((C4_amended_post_process_response ("안녕")).2 ⟨?_, ?_⟩).2 ?_).1 ?_
  · rw [hct]
    exact (contains_korean_l_iff _).mp (by decide)
  · rw [hct]
    intro hq
    exact absurd ((endsWithAnyL_iff _ _).mpr hq) (by decide)
  · rw [hct]
    intro hint
    exact absurd ((containsAny_iff _ _).mpr hint) (by decide)
  · rw [hct]
    intro hh
    exact absurd ((endsWithAnyL_iff _ _).mpr hh) (by decide)

/-- Counterexample to C4 as stated: on this input the cleaned text
contains Hangul and does not end in terminal punctuation or a polite
token, and it contains an interrogative word, yet post_process_response
appends nothing at all (the text already ends in a question-ending
morpheme), contradicting the claim that an ending is appended whenever
the condition holds. -/
theorem C4_counterexample :
    post_process_response ("왜 하나요") = "왜 하나요" ∧
    cleanedText ("왜 하나요") = ("왜 하나요").data ∧
    contains_korean_l (("왜 하나요").data) = true ∧
    endsWithAnyL sentence_end_tokens (("왜 하나요").data) = false ∧
    (question_words.any fun w =>
      containsSub w.data (lowerL (("왜 하나요").data))) = true := by
  have hct : cleanedText ("왜 하나요") = ("왜 하나요").data :=
    cleanedText_eq_of_clean ("왜 하나요") (by decide)
  refine ⟨?_, hct, by decide, by decide, by decide⟩
  rw [post_process_response_eq_fse, hct]
  decide

/-- A list whose last element is a decomposes as a list followed by a. -/
theorem getLast?_eq_some_ex (l : List Char) (a : Char)
    (h : l.getLast? = some a) : ∃ u, l = u ++ [a] := by
  induction l with
  | nil => cases h
  | cons c cs ih =>
    cases cs with
    | nil =>
      refine ⟨[], ?_⟩
      have hca : c = a := by simpa using h
      rw [hca]
      rfl
    | cons d t =>
      rw [List.getLast?_cons_cons] at h
      obtain ⟨u, hu⟩ := ih h
      exact ⟨c :: u, by rw [List.cons_append, ← hu]⟩

/-- Appending a clean non-space suffix to clean text whose last character
is not punctuation yields a fixed point of post_process_response as soon
as the appended text ends in one of the terminal tokens: the second pass
changes nothing.  This is the key step of the idempotence claim. -/
theorem post_fix_of_append (x : String) (suf : List Char) (b e : Char)
    (hxplain : ∀ c ∈ x.data, plainChar c = true)
    (hxhead : x.data.head? ≠ some ' ')
    (hxp1 : pairsOK noTwoSpaces x.data = true)
    (hxp2 : pairsOK noSpacePunct x.data = true)
    (hxp3 : pairsOK noPunctWord x.data = true)
    (hxlast : ∀ a, x.data.getLast? = some a → isPunctC a = false)
    (hsplain : ∀ c ∈ suf, plainChar c = true)
    (hsp1 : pairsOK noTwoSpaces suf = true)
    (hsp2 : pairsOK noSpacePunct suf = true)
    (hsp3 : pairsOK noPunctWord suf = true)
    (hheadb : suf.head? = some b) (hbsp : ¬(b = ' '))
    (hbpunct : isPunctC b = false)
    (hlaste : suf.getLast? = some e) (hesp : ¬(e = ' '))
    (hends : SpecEndsWithAny sentence_end_tokens (x.data ++ suf)) :
    post_process_response (String.mk (x.data ++ suf)) =
      String.mk (x.data ++ suf) := by
  have hbd1 : ∀ p q, x.data.getLast? = some p → suf.head? = some q →
      noTwoSpaces p q = true := by
    intro p q _ hq
    have hqb : q = b := Option.some.inj (hq.symm.trans hheadb)
    subst hqb
    simp [noTwoSpaces, hbsp]
  have hbd2 : ∀ p q, x.data.getLast? = some p → suf.head? = some q →
      noSpacePunct p q = true := by
    intro p q _ hq
    have hqb : q = b := Option.some.inj (hq.symm.trans hheadb)
    subst hqb
    simp [noSpacePunct, hbpunct]
  have hbd3 : ∀ p q, x.data.getLast? = some p → suf.head? = some q →
      noPunctWord p q = true := by
    intro p q hp _
    simp [noPunctWord, hxlast p hp]
  have hyclean : cleanAsciiHangul (String.mk (x.data ++ suf)) = true := by
    apply (cleanAsciiHangul_iff (String.mk (x.data ++ suf))).mpr
    refine ⟨?_, ?_, ?_, ?_, ?_, ?_⟩
    · intro c hc
      rcases List.mem_append.mp hc with h | h
      · exact hxplain c h
      · exact hsplain c h
    · show (x.data ++ suf).head? ≠ some ' '
      cases hxd : x.data with
      | nil =>
        rw [List.nil_append, hheadb]
        intro hcon
        exact hbsp (Option.some.inj hcon)
      | cons a t =>
        rw [List.cons_append, List.head?_cons]
        rw [hxd, List.head?_cons] at hxhead
        exact hxhead
    · show (x.data ++ suf).getLast? ≠ some ' '
      rw [List.getLast?_append, hlaste]
      intro hcon
      exact hesp (Option.some.inj (by simpa [Option.or] using hcon))
    · exact pairsOK_append noTwoSpaces suf hsp1 x.data hxp1 hbd1
    · exact pairsOK_append noSpacePunct suf hsp2 x.data hxp2 hbd2
    · exact pairsOK_append noPunctWord suf hsp3 x.data hxp3 hbd3
  rw [post_process_response_eq_fse,
    cleanedText_eq_of_clean _ hyclean]
  rw [(fse_characterisation ((String.mk (x.data ++ suf)).data)).1
    (fun hcond => hcond.2 hends)]

/-- C5 amended: post_process_response is idempotent on already-clean
ASCII/Hangul text whose last character is not a comma, semicolon or
colon.  (When clean Korean text ends in one of those marks and a polite
ending is appended, the second pass inserts a space after the mark, so
idempotence fails; see the counterexample.) -/
theorem C5_amended_idempotent_on_clean (x : String)
    (hclean : cleanAsciiHangul x = true)
    (hl1 : x.data.getLast? ≠ some ',')
    (hl2 : x.data.getLast? ≠ some ';')
    (hl3 : x.data.getLast? ≠ some ':') :
    post_process_response (post_process_response x) =
      post_process_response x := by
  obtain ⟨hplain, hhead, hlastsp, hp1, hp2, hp3⟩ :=
    (cleanAsciiHangul_iff x).mp hclean
  have hct := cleanedText_eq_of_clean x hclean
  have hpost : post_process_response x =
      String.mk (fix_sentence_endings_l x.data) := by
    rw [post_process_response_eq_fse, hct]
  have hchar := fse_characterisation x.data
  by_cases hcond : SpecHangul x.data ∧
      ¬SpecEndsWithAny sentence_end_tokens x.data
  case neg =>
    have hx : post_process_response x = x := by
      rw [hpost, hchar.1 hcond]
    simp only [hx]
  case pos =>
    have hxlast : ∀ a, x.data.getLast? = some a → isPunctC a = false := by
      intro a ha
      cases hpa : isPunctC a
      · rfl
      · exfalso
        have hdec :
            ((((a = ',' ∨ a = '.') ∨ a = '!') ∨ a = '?') ∨ a = ';') ∨ a = ':' := by
          simpa [isPunctC] using hpa
        obtain ⟨u, hu⟩ := getLast?_eq_some_ex x.data a ha
        rcases hdec with ((((h | h) | h) | h) | h) | h
        · exact hl1 (h ▸ ha)
        · exact hcond.2 ⟨".", by decide, u, by rw [hu, h]⟩
        · exact hcond.2 ⟨"!", by decide, u, by rw [hu, h]⟩
        · exact hcond.2 ⟨"?", by decide, u, by rw [hu, h]⟩
        · exact hl2 (h ▸ ha)
        · exact hl3 (h ▸ ha)
    by_cases hint : SpecContainsAny question_words (lowerL x.data)
    · by_cases hq : SpecEndsWithAny question_endings x.data
      · have hx : post_process_response x = x := by
          rw [hpost, ((hchar.2 hcond).1 hint).2 hq]
        simp only [hx]
      · have hx : post_process_response x =
            String.mk (x.data ++ ("까요?").data) := by
          rw [hpost, ((hchar.2 hcond).1 hint).1 hq]
        rw [hx]
        exact post_fix_of_append x (("까요?").data) '까' '?'
          hplain hhead hp1 hp2 hp3 hxlast
          (by decide) (by decide) (by decide) (by decide)
          rfl (by decide) (by decide) rfl (by decide)
          ⟨"?", by decide, x.data ++ ['까', '요'], by
            rw [show ("까요?").data = ['까', '요'] ++ ("?").data from rfl,
              ← List.append_assoc]⟩
    · by_cases hh : SpecEndsWithAny honorific_endings x.data
      · have hx : post_process_response x = x := by
          rw [hpost, ((hchar.2 hcond).2 hint).2 hh]
        simp only [hx]
      · have hx : post_process_response x =
            String.mk (x.data ++ ("습니다.").data) := by
          rw [hpost, ((hchar.2 hcond).2 hint).1 hh]
        rw [hx]
        exact post_fix_of_append x (("습니다.").data) '습' '.'
          hplain hhead hp1 hp2 hp3 hxlast
          (by decide) (by decide) (by decide) (by decide)
          rfl (by decide) (by decide) rfl (by decide)
          ⟨".", by decide, x.data ++ ['습', '니', '다'], by
            rw [show ("습니다.").data = ['습', '니', '다'] ++ (".").data from rfl,
              ← List.append_assoc]⟩

/-- Witness for the amended C5: the Korean greeting is clean, does not
end in one of the excluded marks, and post_process_response is idempotent
on it. -/
theorem C5_witness :
    cleanAsciiHangul ("안녕하세요") = true ∧
    post_process_response (post_process_response ("안녕하세요")) =
      post_process_response ("안녕하세요") :=
  ⟨by decide, C5_amended_idempotent_on_clean ("안녕하세요")
    (by decide) (by decide) (by decide) (by decide)⟩

/-- Counterexample to C5 as stated: this input is already-clean
ASCII/Hangul text, yet post_process_response is not idempotent on it: the
first pass appends the question ending after the comma, and the second
pass inserts a space after that comma. -/
theorem C5_counterexample :
    cleanAsciiHangul ("왜,") = true ∧
    post_process_response (post_process_response ("왜,")) ≠
      post_process_response ("왜,") := by
  have hct : cleanedText ("왜,") = ("왜,").data :=
    cleanedText_eq_of_clean ("왜,") (by decide)
  have hp1 : post_process_response ("왜,") = "왜,까요?" := by
    rw [post_process_response_eq_fse, hct]
    decide
  have hstr : stripTokens (("왜,까요?").data) = ("왜,까요?").data :=
    stripTokens_eq_self _ (by decide)
  have hct2 : cleanedText ("왜,까요?") = ("왜, 까요?").data := by
    unfold cleanedText cleanupStages
    rw [hstr]
    decide
  have hp2 : post_process_response ("왜,까요?") = "왜, 까요?" := by
    rw [post_process_response_eq_fse, hct2]
    decide
  refine ⟨by decide, ?_⟩
  rw [hp1, hp2]
  decide

end HBAI
